import Mathlib

/-!
Verification development for the nuxeo-drive synchronizer
(nuxeo-drive-client/nxdrive/synchronizer.py).

The Python source is shallowly embedded: the persistent pair-state table
(SQLAlchemy `LastKnownState` rows) is a `List LastKnownState`, `filter_by`
queries are list filters, `.first()` is `List.find?`, and Python float
arithmetic on Jaccard indices is modelled by exact rationals (all values
involved are ratios of small naturals, where IEEE doubles behave exactly for
the zero test made by the code).

The code is Python 2: `list.sort(reverse=True)` on a list of
`(key_tuple, candidate_object)` pairs compares tuples lexicographically and,
when the key tuples tie, falls through to the default CPython 2 comparison of
the candidate objects themselves, which orders two instances of the same
class by memory address.  Object identity is modelled by an explicit `oid`
field, and the reversed stable sort by a stable insertion sort on the
descending full lexicographic order (CPython implements `reverse=True` by
double reversal around a stable ascending sort, which on the all-distinct
full keys is exactly the descending order).
-/

/-- Embedding of a `LastKnownState` row (nxdrive/model.py, used throughout
synchronizer.py).  `oid` models CPython object identity (`id()`), which the
Python 2 fallback comparison used by `list.sort` is based on.  `server_url`
models `pair.server_binding.server_url`.  Only the columns read by the
functions under verification are included. -/
structure LastKnownState where
  oid : Nat
  local_folder : String := ""
  server_url : String := ""
  local_path : Option String := none
  local_parent_path : Option String := none
  local_name : Option String := none
  local_digest : Option String := none
  local_state : String := "unknown"
  remote_ref : Option String := none
  remote_parent_ref : Option String := none
  remote_name : Option String := none
  remote_state : String := "unknown"
  folderish : Bool := false
  remote_can_create_child : Bool := true
  last_sync_error_date : Option Nat := none
deriving DecidableEq, Repr

/-- Embedding of `jaccard_index(set_1, set_2)` (synchronizer.py lines 72-83):
returns 1.0 when both sets are empty, else the float
`len(set_1 & set_2) / len(set_1 | set_2)`, modelled as an exact rational. -/
def jaccard_index {α : Type} [DecidableEq α] (set_1 set_2 : Finset α) : ℚ :=
  if set_1.card = 0 ∧ set_2.card = 0 then 1
  else ((set_1 ∩ set_2).card : ℚ) / ((set_1 ∪ set_2).card : ℚ)

/-- Embedding of `_local_children_names(doc_pair, session)` (lines 86-89):
the set of `local_name` of all rows whose `local_parent_path` equals the
pair's `local_path` (note: the source query has no `local_folder` filter
here). -/
def _local_children_names (store : List LastKnownState)
    (doc_pair : LastKnownState) : Finset (Option String) :=
  ((store.filter (fun child => child.local_parent_path == doc_pair.local_path)).map
    (fun child => child.local_name)).toFinset

/-- The relatedness key `(ji, same_name, same_parent)` computed for a
candidate inside `rerank_local_rename_or_move_candidates` (lines 110-125):
`ji` is the Jaccard index of direct-children name sets when the source pair
is folderish and 1.0 otherwise; `same_name` and `same_parent` compare
`local_name` and `local_parent_path` of source and candidate. -/
def relatednessKey (store : List LastKnownState)
    (doc_pair c : LastKnownState) : ℚ × Bool × Bool :=
  (if doc_pair.folderish then
      jaccard_index (_local_children_names store doc_pair)
        (_local_children_names store c)
    else 1,
   doc_pair.local_name == c.local_name,
   doc_pair.local_parent_path == c.local_parent_path)

/-- The full CPython 2 comparison key of one element of the `relatednesses`
list: the lexicographic product of the relatedness tuple and the candidate
object identity (reached by tuple comparison when the relatedness tuples
tie). -/
def fullKeyLex (e : (ℚ × Bool × Bool) × LastKnownState) :
    ℚ ×ₗ (Bool ×ₗ (Bool ×ₗ ℕ)) :=
  toLex (e.1.1, toLex (e.1.2.1, toLex (e.1.2.2, e.2.oid)))

/-- Descending order used to model `relatednesses.sort(reverse=True)`:
`a` may come before `b` when the full CPython 2 key of `b` is at most that
of `a`. -/
def py2SortGe (a b : (ℚ × Bool × Bool) × LastKnownState) : Prop :=
  fullKeyLex b ≤ fullKeyLex a

instance : DecidableRel py2SortGe := fun a b =>
  inferInstanceAs (Decidable (fullKeyLex b ≤ fullKeyLex a))

instance : IsTotal ((ℚ × Bool × Bool) × LastKnownState) py2SortGe :=
  ⟨fun a b => le_total (fullKeyLex b) (fullKeyLex a)⟩

instance : IsTrans ((ℚ × Bool × Bool) × LastKnownState) py2SortGe :=
  ⟨fun _ _ _ hab hbc => le_trans hbc hab⟩

/-- Embedding of `rerank_local_rename_or_move_candidates(doc_pair,
candidates, session)` (lines 92-128): compute the relatedness key of every
candidate, prune candidates whose Jaccard index is 0.0, sort the
`(key, candidate)` pairs in place with `reverse=True`, and return the
candidates. -/
def rerank_local_rename_or_move_candidates (store : List LastKnownState)
    (doc_pair : LastKnownState)
    (candidates : List LastKnownState) : List LastKnownState :=
  let children_names := _local_children_names store doc_pair
  let relatednesses := candidates.filterMap (fun c =>
    let ji : ℚ :=
      if doc_pair.folderish then
        jaccard_index children_names (_local_children_names store c)
      else 1
    if ji = 0 then none
    else some ((ji, doc_pair.local_name == c.local_name,
                doc_pair.local_parent_path == c.local_parent_path), c))
  (List.insertionSort py2SortGe relatednesses).map (fun e => e.2)

/-- Lexicographic view of a relatedness tuple, used to state the descending
sortedness of the re-ranked output. -/
def key3Lex (k : ℚ × Bool × Bool) : ℚ ×ₗ (Bool ×ₗ Bool) :=
  toLex (k.1, toLex (k.2.1, k.2.2))

example : jaccard_index (∅ : Finset ℕ) ∅ = 1 := by decide

/-- Embedding of Python 2 `os.path.splitext` on a plain file name: splits
off `b ++ "." ++ e` at the last dot of the name, where `e` holds no dot. -/
def splitLastDot : List Char → Option (List Char × List Char)
  | [] => none
  | c :: cs =>
    match splitLastDot cs with
    | some (b, e) => some (c :: b, e)
    | none => if c = '.' then some ([], cs) else none

/-- Embedding of Python 2 `os.path.splitext` for names without directory
separators (the inputs of `name_match` are plain base names): the extension
starts at the last dot, unless every character before that dot is itself a
dot (leading dots do not start an extension, e.g. `.bashrc`). -/
def splitext (p : String) : String × String :=
  match splitLastDot p.data with
  | none => (p, "")
  | some (b, e) =>
    if b.any (fun c => c ≠ '.') then (String.mk b, String.mk ('.' :: e))
    else (p, "")

/-- Modelled from the spec: `safe_filename` (imported from nxdrive.client,
whose source is not part of this repository snapshot) applies a
safe-filename normalization to a Nuxeo document title, replacing characters
that are unsafe in file names with a dash. -/
def safe_filename (name : String) : String :=
  String.mk (name.data.map (fun c =>
    if c = '/' ∨ c = '\\' ∨ c = '*' ∨ c = ':' ∨ c = '|' ∨ c = '"' ∨
       c = '<' ∨ c = '>' ∨ c = '?' then '-' else c))

/-- Modelled from the spec: `DEDUPED_BASENAME_PATTERN` (imported from
nxdrive.client, whose source is not part of this repository snapshot)
recognises a local base name produced by deduplication, of the shape
`<base>__<digits>` (e.g. `foo__1`), and yields the base.  The regex capture
`(.*)` is greedy, so the split happens at the last such suffix; this is
implemented by preferring the match found in the tail. -/
def dedupedSplit : List Char → Option (List Char)
  | [] => none
  | c :: cs =>
    match dedupedSplit cs with
    | some b => some (c :: b)
    | none =>
      match cs with
      | c2 :: ds =>
        if c = '_' ∧ c2 = '_' ∧ ds ≠ [] ∧ ds.all Char.isDigit then some []
        else none
      | [] => none

/-- The local base name with any deduplication suffix stripped (the
`m.groups()` step of `name_match`, lines 64-68). -/
def stripDedupSuffix (base : String) : String :=
  match dedupedSplit base.data with
  | some b => String.mk b
  | none => base

/-- Embedding of `name_match(local_name, remote_name)` (lines 54-69):
normalize the remote name, compare file extensions, then compare the local
base name (deduplication suffix stripped) with the remote base name. -/
def name_match (local_name remote_name : String) : Bool :=
  let remote_name := safe_filename remote_name
  let lsplit := splitext local_name
  let rsplit := splitext remote_name
  if rsplit.2 ≠ lsplit.2 then false
  else stripDedupSuffix lsplit.1 == rsplit.1

/-- Embedding of `find_first_name_match(name, possible_pairs)` (lines
131-146): return the first pair that can match the provided name, skipping
pairs that already link both a local and a remote resource. -/
def find_first_name_match (name : String) :
    List LastKnownState → Option LastKnownState
  | [] => none
  | pair :: rest =>
    match pair.local_name, pair.remote_name with
    | some _, some _ => find_first_name_match name rest
    | some ln, none =>
      if name_match ln name then some pair else find_first_name_match name rest
    | none, some rn =>
      if name_match name rn then some pair else find_first_name_match name rest
    | none, none => find_first_name_match name rest

/-- The predicate a pair must satisfy to be returned by
`find_first_name_match`: exactly one side's name is present, and the present
name matches the searched name under `name_match` with the argument order
used by the source. -/
def oneSidedNameMatch (name : String) (pair : LastKnownState) : Bool :=
  match pair.local_name, pair.remote_name with
  | some ln, none => name_match ln name
  | none, some rn => name_match name rn
  | _, _ => false

example : splitext "foo.txt" = ("foo", ".txt") := by decide
example : splitext ".bashrc" = (".bashrc", "") := by decide
example : splitext "a.b.c" = ("a.b", ".c") := by decide
example : splitext "foo." = ("foo", ".") := by decide
example : splitext "foo" = ("foo", "") := by decide
example : stripDedupSuffix "foo__1" = "foo" := by decide
example : stripDedupSuffix "a__1__2" = "a__1" := by decide
example : stripDedupSuffix "foo__" = "foo__" := by decide
example : stripDedupSuffix "foo__1a" = "foo__1a" := by decide
example : name_match "foo__1.txt" "foo.txt" = true := by decide
example : name_match "foo.txt" "foo.png" = false := by decide
example : name_match "foo.txt" "fo*o.txt" = false := by decide
example : name_match "fo-o.txt" "fo*o.txt" = true := by decide

/-- A store mutation performed by `_mark_deleted_local_recursive` on one
pair: either the row is deleted from the session (`session.delete`) or the
pair is marked locally deleted (`doc_pair.update_local(None)`).  Rows are
identified by object identity. -/
inductive StoreAction where
  | deleteRow (oid : Nat)
  | markLocallyDeleted (oid : Nat)
deriving DecidableEq, Repr

/-- Modelled from the spec: `doc_pair.update_local(None)` (nxdrive/model.py,
not part of this repository snapshot) marks the pair for remote deletion by
setting `local_state = deleted`, keeping the row. -/
def update_local_none (p : LastKnownState) : LastKnownState :=
  { p with local_state := "deleted" }

/-- The child query of `_mark_deleted_local_recursive` (lines 287-289): rows
with the same `local_folder` whose `local_parent_path` equals the pair's
`local_path`. -/
def childrenByLocalParent (store : List LastKnownState)
    (doc_pair : LastKnownState) : List LastKnownState :=
  store.filter (fun c => c.local_folder == doc_pair.local_folder &&
    c.local_parent_path == doc_pair.local_path)

/-- The action `_mark_deleted_local_recursive` takes on a pair itself (lines
294-299): delete the row when `remote_ref` is absent, else mark it locally
deleted. -/
def markPairAction (p : LastKnownState) : StoreAction :=
  if p.remote_ref = none then StoreAction.deleteRow p.oid
  else StoreAction.markLocallyDeleted p.oid

/-- Applying the action on the pair itself to the store. -/
def applyMarkPair (store : List LastKnownState) (p : LastKnownState) :
    List LastKnownState :=
  if p.remote_ref = none then store.filter (fun q => q.oid != p.oid)
  else store.map (fun q => if q.oid == p.oid then update_local_none q else q)

/-- Worklist item of the depth-first traversal of
`_mark_deleted_local_recursive`: a pair still to visit (children first), or
a pair whose own action is due. -/
inductive MarkTask where
  | visit (p : LastKnownState)
  | act (p : LastKnownState)
deriving DecidableEq, Repr

/-- The pair carried by a worklist item. -/
def MarkTask.pairOf : MarkTask → LastKnownState
  | .visit p => p
  | .act p => p

/-- Depth-first engine of `_mark_deleted_local_recursive` (lines 283-299):
visiting a pair queries its children from the current store and schedules
them (in query order) before the pair's own action; the action deletes or
marks the row.  The fuel bounds the recursion depth (the Python recursion
diverges on a cyclic parent-path relation); `none` models exhaustion. -/
def markDeletedLocalAux :
    Nat → List LastKnownState → List MarkTask →
      Option (List LastKnownState × List StoreAction)
  | 0, _, _ => none
  | _ + 1, store, [] => some (store, [])
  | fuel + 1, store, MarkTask.visit p :: rest =>
    markDeletedLocalAux fuel store
      ((childrenByLocalParent store p).map MarkTask.visit ++ MarkTask.act p :: rest)
  | fuel + 1, store, MarkTask.act p :: rest =>
    match markDeletedLocalAux fuel (applyMarkPair store p) rest with
    | none => none
    | some (st, tr) => some (st, markPairAction p :: tr)

/-- Embedding of `_mark_deleted_local_recursive(session, doc_pair)` (lines
283-299), returning the final store and the list of row actions in
execution order. -/
def _mark_deleted_local_recursive (fuel : Nat) (store : List LastKnownState)
    (doc_pair : LastKnownState) :
    Option (List LastKnownState × List StoreAction) :=
  markDeletedLocalAux fuel store [MarkTask.visit doc_pair]

/-- A remote file-system item as parsed by the external client's
`file_to_info` (the change entries carry the already-parsed info the loop
consumes). -/
structure FsItemInfo where
  uid : String
  parent_uid : String
  name : String
  folderish : Bool
  digest : Option String := none
deriving DecidableEq, Repr

/-- One entry of `summary['fileSystemChanges']` consumed by
`_update_remote_states` (lines 1239-1259). -/
structure ChangeEvent where
  eventDate : Int
  fileSystemItemId : String
  fileSystemItem : Option FsItemInfo
deriving DecidableEq, Repr

/-- Embedding of a `ServerBinding` row: the change-feed cursor of one bound
local folder. -/
structure ServerBinding where
  local_folder : String
  server_url : String
  last_sync_date : Option Nat := none
  last_root_definitions : Option String := none
deriving DecidableEq, Repr

/-- The kind of store update one change event triggers when it is applied
(exactly the branches that execute `refreshed.add(remote_ref)` in the
source). -/
inductive RemoteChangeAction where
  | markRemotelyDeleted
  | scanExisting
  | createChild
deriving DecidableEq, Repr

/-- Record of one applied change event. -/
structure AppliedChange where
  eventDate : Int
  remote_ref : String
  action : RemoteChangeAction
deriving DecidableEq, Repr

/-- Collaborators of `_update_remote_states` modelled as opaque store
transformers: `_scan_remote_recursive` (lines 446-494),
`_find_remote_child_match_or_create` (lines 496-542, returning the child
pair and the created marker) and `update_remote` (nxdrive/model.py).  The
claims under verification constrain the event-processing discipline of the
loop (lines 1248-1315), which holds for every behaviour of these
collaborators; counterexamples instantiate them concretely. -/
structure RemoteScanEnv where
  scan_remote_recursive :
    List LastKnownState → LastKnownState → FsItemInfo → List LastKnownState
  find_remote_child_match_or_create :
    List LastKnownState → LastKnownState → FsItemInfo →
      List LastKnownState × LastKnownState × Bool
  update_remote : LastKnownState → FsItemInfo → LastKnownState

/-- Descending processing order on change events:
`sorted(changes, key=eventDate, reverse=True)` (lines 1239-1240). -/
def changeDateGe (a b : ChangeEvent) : Prop := b.eventDate ≤ a.eventDate

instance : DecidableRel changeDateGe := fun a b =>
  inferInstanceAs (Decidable (b.eventDate ≤ a.eventDate))

instance : IsTotal ChangeEvent changeDateGe :=
  ⟨fun a b => le_total b.eventDate a.eventDate⟩

instance : IsTrans ChangeEvent changeDateGe :=
  ⟨fun _ _ _ hab hbc => le_trans hbc hab⟩

/-- The stable descending sort of the change events by `eventDate` (lines
1239-1240). -/
def sortedChanges (changes : List ChangeEvent) : List ChangeEvent :=
  List.insertionSort changeDateGe changes

/-- The creation branch of the loop body (lines 1282-1315): when the event
carries a file-system item and no update was applied, look up parent pairs
by `remote_ref = parent_uid` (no `local_folder` filter in the source), take
the first one bound to the same server url, run match-or-create, deep-scan a
newly created folder or refresh an aligned existing pair, and report the
application; without a matching parent the event is only logged. -/
def stepCreateChange (env : RemoteScanEnv) (binding : ServerBinding)
    (change : ChangeEvent) (store : List LastKnownState) :
    List LastKnownState × Option RemoteChangeAction :=
  match change.fileSystemItem with
  | none => (store, none)
  | some info =>
    match (store.filter (fun q => q.remote_ref == some info.parent_uid)).find?
        (fun q => q.server_url == binding.server_url) with
    | none => (store, none)
    | some parent_pair =>
      let m := env.find_remote_child_match_or_create store parent_pair info
      let store2 :=
        if m.2.1.folderish && m.2.2 then env.scan_remote_recursive m.1 m.2.1 info
        else if !m.2.2 then
          m.1.map (fun q => if q.oid == m.2.1.oid then env.update_remote q info else q)
        else m.1
      (store2, some RemoteChangeAction.createChild)

/-- Handling of one not-yet-refreshed change event (lines 1251-1315): when a
pair with the event's `remote_ref` exists in the same `local_folder` and its
binding has the summary's server url, mark it remotely deleted (item absent)
or rescan it (item present); otherwise fall through to the creation branch.
Returns the updated store and the applied action, if any. -/
def stepRemoteChange (env : RemoteScanEnv) (binding : ServerBinding)
    (change : ChangeEvent) (store : List LastKnownState) :
    List LastKnownState × Option RemoteChangeAction :=
  let remote_ref := change.fileSystemItemId
  match store.find? (fun p => p.local_folder == binding.local_folder &&
      p.remote_ref == some remote_ref) with
  | some p =>
    if p.server_url == binding.server_url then
      match change.fileSystemItem with
      | none =>
        (store.map (fun q =>
          if q.oid == p.oid then { q with remote_state := "deleted" } else q),
         some RemoteChangeAction.markRemotelyDeleted)
      | some info =>
        (env.scan_remote_recursive store p info,
         some RemoteChangeAction.scanExisting)
    else stepCreateChange env binding change store
  | none => stepCreateChange env binding change store

/-- The scan loop of `_update_remote_states` (lines 1249-1315): process the
sorted events in order, skipping any event whose `fileSystemItemId` is
already in `refreshed`; an event that results in a store update adds its ref
to `refreshed`, an event that does not leaves `refreshed` unchanged. -/
def processRemoteChanges (env : RemoteScanEnv) (binding : ServerBinding) :
    List ChangeEvent → List LastKnownState → List String →
      List LastKnownState × List AppliedChange
  | [], store, _ => (store, [])
  | change :: rest, store, refreshed =>
    if change.fileSystemItemId ∈ refreshed then
      processRemoteChanges env binding rest store refreshed
    else
      match stepRemoteChange env binding change store with
      | (store1, none) => processRemoteChanges env binding rest store1 refreshed
      | (store1, some act) =>
        let r := processRemoteChanges env binding rest store1
          (change.fileSystemItemId :: refreshed)
        (r.1, { eventDate := change.eventDate,
                remote_ref := change.fileSystemItemId, action := act } :: r.2)

/-- Embedding of `_update_remote_states(server_binding, summary)` (lines
1233-1315): sort the events by `eventDate` descending and run the scan
loop with an empty `refreshed` set. -/
def _update_remote_states (env : RemoteScanEnv) (binding : ServerBinding)
    (changes : List ChangeEvent) (store : List LastKnownState) :
    List LastKnownState × List AppliedChange :=
  processRemoteChanges env binding (sortedChanges changes) store []

/-- Modelled from the spec: `doc_pair.update_state(local, remote)`
(nxdrive/model.py, not part of this repository snapshot) sets the two state
columns; `pair_state` is derived from them. -/
def update_state (ls rs : String) (p : LastKnownState) : LastKnownState :=
  { p with local_state := ls, remote_state := rs }

/-- Embedding of Python `os.path.basename`: the part of the path after the
last slash. -/
def os_path_basename (p : String) : String :=
  String.mk (p.data.foldl (fun acc c => if c = '/' then [] else acc ++ [c]) [])

/-- A remote call performed by the creation branch of
`_synchronize_locally_created` (lines 695-704). -/
inductive RemoteCreationOp where
  | makeFolder (parent_ref name : String)
  | streamFile (parent_ref name : String)
deriving DecidableEq, Repr

/-- External collaborators of `_synchronize_locally_created`, modelled
opaquely: the refs returned by `remote_client.make_folder` /
`remote_client.stream_file`, and the effect of
`doc_pair.update_remote(remote_client.get_info(ref))` on the pair. -/
structure CreateEnv where
  make_folder : String → String → String
  stream_file : String → String → String
  bind_remote : LastKnownState → String → LastKnownState

/-- Outcome of `_synchronize_locally_created`: handled as a detected local
move, aborted by the illegal-parent `ValueError` (lines 686-693), or
completed with the final pair value and the remote creation calls made. -/
inductive LocallyCreatedResult where
  | moveHandled
  | invalidParent
  | done (pair : LastKnownState) (ops : List RemoteCreationOp)
deriving DecidableEq, Repr

/-- Embedding of `_synchronize_locally_created(doc_pair, session, ...)`
(lines 674-717).  `move_detected` is the outcome of
`_detect_resolve_local_move` (the claims under verification fix it to
false).  The parent pair is looked up by `local_folder` and `local_path =
local_parent_path`; a parent that can create children leads to a remote
creation and binding, a read-only parent leads to no remote call, the
folderish-only flip of `remote_can_create_child`, and a synchronized
state. -/
def _synchronize_locally_created (env : CreateEnv) (move_detected : Bool)
    (store : List LastKnownState) (doc_pair : LastKnownState) :
    LocallyCreatedResult :=
  if move_detected then LocallyCreatedResult.moveHandled
  else
    let name := os_path_basename (doc_pair.local_path.getD "")
    match store.find? (fun q => q.local_folder == doc_pair.local_folder &&
        q.local_path == doc_pair.local_parent_path) with
    | none => LocallyCreatedResult.invalidParent
    | some parent_pair =>
      if parent_pair.remote_can_create_child && parent_pair.remote_ref == none then
        LocallyCreatedResult.invalidParent
      else
        let parent_ref := parent_pair.remote_ref.getD ""
        if parent_pair.remote_can_create_child then
          if doc_pair.folderish then
            LocallyCreatedResult.done
              (update_state "synchronized" "synchronized"
                (env.bind_remote doc_pair (env.make_folder parent_ref name)))
              [RemoteCreationOp.makeFolder parent_ref name]
          else
            LocallyCreatedResult.done
              (update_state "synchronized" "synchronized"
                (env.bind_remote doc_pair (env.stream_file parent_ref name)))
              [RemoteCreationOp.streamFile parent_ref name]
        else
          LocallyCreatedResult.done
            (update_state "synchronized" "synchronized"
              (if doc_pair.folderish then
                { doc_pair with remote_can_create_child := false }
              else doc_pair))
            []

/-- Outcome of one `synchronize_one` call as seen by the `synchronize` loop
(lines 1047-1070): success, an exception of one of the
`POSSIBLE_NETWORK_ERROR_TYPES` carrying `getattr(e, 'code', None)`, or any
other exception. -/
inductive SyncOneOutcome where
  | success
  | networkError (code : Option Nat)
  | otherError
deriving DecidableEq, Repr

/-- Embedding of `UNEXPECTED_HTTP_STATUS` (lines 37-40). -/
def UNEXPECTED_HTTP_STATUS : List Nat := [500, 403]

/-- What the `synchronize` loop does with one pending pair (lines
1047-1070): count it synchronized, blacklist it (set
`last_sync_error_date = now`, commit) and continue, or re-raise the
exception. -/
inductive SyncStepResult where
  | synchronized
  | blacklisted (pair : LastKnownState)
  | propagate (code : Option Nat)
deriving DecidableEq, Repr

/-- The exception dispatch of one iteration of the `synchronize` loop
(lines 1047-1070): a network-type error whose `code` attribute is in
`UNEXPECTED_HTTP_STATUS` blacklists the pair, every other network-type
error is re-raised, and any other exception blacklists the pair. -/
def syncLoopStep (now : Nat) (pair : LastKnownState)
    (outcome : SyncOneOutcome) : SyncStepResult :=
  match outcome with
  | SyncOneOutcome.success => SyncStepResult.synchronized
  | SyncOneOutcome.networkError code =>
    if UNEXPECTED_HTTP_STATUS.any (fun s => code == some s) then
      SyncStepResult.blacklisted { pair with last_sync_error_date := some now }
    else SyncStepResult.propagate code
  | SyncOneOutcome.otherError =>
    SyncStepResult.blacklisted { pair with last_sync_error_date := some now }

/-- The `synchronize` inner loop over successive pending pairs, each with
the outcome of its `synchronize_one` call: blacklisting continues with the
next pending pair, a re-raised network error propagates out of
`synchronize` (interrupting the pass). -/
def synchronizeLoop (now : Nat) :
    List (LastKnownState × SyncOneOutcome) →
      Except (Option Nat) (List SyncStepResult)
  | [] => Except.ok []
  | (pair, outcome) :: rest =>
    match syncLoopStep now pair outcome with
    | SyncStepResult.propagate code => Except.error code
    | r => (synchronizeLoop now rest).map (fun rs => r :: rs)

/-- The change summary returned by `remote_client.get_changes` as consumed
by `update_synchronize_server` and `_get_remote_changes` (lines 1210-1223,
1317-1355). -/
structure ChangeSummary where
  hasTooManyChanges : Bool
  syncDate : Nat
  activeSynchronizationRootDefinitions : Option String
  fileSystemChanges : List ChangeEvent
deriving DecidableEq, Repr

/-- The checkpoint data built by `_get_remote_changes` (lines 1219-1221):
`(syncDate, activeSynchronizationRootDefinitions)` of the fetched summary. -/
def _get_remote_changes_checkpoint (summary : ChangeSummary) :
    Nat × Option String :=
  (summary.syncDate, summary.activeSynchronizationRootDefinitions)

/-- Embedding of `_checkpoint(server_binding, checkpoint_data)` (lines
1225-1231): save the summary's sync date and root definitions on the
binding. -/
def _checkpoint (binding : ServerBinding) (cp : Nat × Option String) :
    ServerBinding :=
  { binding with last_sync_date := some cp.1, last_root_definitions := cp.2 }

/-- The remote-refresh phase of `update_synchronize_server(server_binding,
full_scan)` (lines 1317-1355) on its non-failing path: choose between the
full remote scan (`scan_remote`, an external tree walk modelled opaquely)
and the incremental `_update_remote_states`, then save the checkpoint taken
from the fetched summary.  Returns (full scan performed?, store, binding). -/
def update_synchronize_server (env : RemoteScanEnv)
    (scan_remote : List LastKnownState → List LastKnownState)
    (binding : ServerBinding) (summary : ChangeSummary) (full_scan : Bool)
    (store : List LastKnownState) :
    Bool × List LastKnownState × ServerBinding :=
  let first_pass := binding.last_sync_date.isNone
  let checkpoint := _get_remote_changes_checkpoint summary
  if full_scan || summary.hasTooManyChanges || first_pass then
    (true, scan_remote store, _checkpoint binding checkpoint)
  else
    (false,
     (_update_remote_states env binding summary.fileSystemChanges store).1,
     _checkpoint binding checkpoint)

theorem fullKey_le_key3Lex_le {q1 q2 : ℚ} {b1 b2 c1 c2 : Bool} {n1 n2 : ℕ}
    (h : (toLex (q1, toLex (b1, toLex (c1, n1))) : ℚ ×ₗ (Bool ×ₗ (Bool ×ₗ ℕ)))
      ≤ toLex (q2, toLex (b2, toLex (c2, n2)))) :
    (toLex (q1, toLex (b1, c1)) : ℚ ×ₗ (Bool ×ₗ Bool))
      ≤ toLex (q2, toLex (b2, c2)) := by
  rw [Prod.Lex.le_iff] at h ⊢
  rcases h with h | ⟨hq, h⟩
  · exact Or.inl h
  · refine Or.inr ⟨hq, ?_⟩
    rw [Prod.Lex.le_iff] at h ⊢
    rcases h with h | ⟨hb, h⟩
    · exact Or.inl h
    · refine Or.inr ⟨hb, ?_⟩
      rw [Prod.Lex.le_iff] at h
      rcases h with h | ⟨hc, _⟩
      · exact le_of_lt h
      · exact le_of_eq hc

theorem fullKey_le_same_key_oid_le {q : ℚ} {b c : Bool} {n1 n2 : ℕ}
    (h : (toLex (q, toLex (b, toLex (c, n2))) : ℚ ×ₗ (Bool ×ₗ (Bool ×ₗ ℕ)))
      ≤ toLex (q, toLex (b, toLex (c, n1)))) : n2 ≤ n1 := by
  rw [Prod.Lex.le_iff] at h
  rcases h with h | ⟨_, h⟩
  · exact absurd h (lt_irrefl q)
  · rw [Prod.Lex.le_iff] at h
    rcases h with h | ⟨_, h⟩
    · exact absurd h (lt_irrefl b)
    · rw [Prod.Lex.le_iff] at h
      rcases h with h | ⟨_, h⟩
      · exact absurd h (lt_irrefl c)
      · exact h

theorem rerank_filterMap_view (store : List LastKnownState)
    (doc_pair : LastKnownState) (candidates : List LastKnownState) :
    rerank_local_rename_or_move_candidates store doc_pair candidates =
    (List.insertionSort py2SortGe (candidates.filterMap (fun c =>
        if (relatednessKey store doc_pair c).1 = 0 then none
        else some (relatednessKey store doc_pair c, c)))).map (fun e => e.2) :=
  rfl

theorem filterMap_relatedness_map_snd (store : List LastKnownState)
    (doc_pair : LastKnownState) (candidates : List LastKnownState) :
    (candidates.filterMap (fun c =>
        if (relatednessKey store doc_pair c).1 = 0 then none
        else some (relatednessKey store doc_pair c, c))).map (fun e => e.2)
    = candidates.filter
        (fun c => decide ((relatednessKey store doc_pair c).1 ≠ 0)) := by
  induction candidates with
  | nil => rfl
  | cons c cs ih =>
    by_cases h : (relatednessKey store doc_pair c).1 = 0
    · simp [List.filterMap_cons, List.filter_cons, h, ih]
    · simp [List.filterMap_cons, List.filter_cons, h, ih]

theorem mem_filterMap_relatedness (store : List LastKnownState)
    (doc_pair : LastKnownState) (candidates : List LastKnownState) :
    ∀ e ∈ candidates.filterMap (fun c =>
        if (relatednessKey store doc_pair c).1 = 0 then none
        else some (relatednessKey store doc_pair c, c)),
      e.1 = relatednessKey store doc_pair e.2 := by
  intro e he
  rcases List.mem_filterMap.mp he with ⟨a, _, ha⟩
  by_cases h : (relatednessKey store doc_pair a).1 = 0
  · simp [h] at ha
  · simp only [h, if_neg, if_false] at ha
    cases ha
    rfl

/-- C1: for every source pair and candidate list,
`rerank_local_rename_or_move_candidates` returns exactly the candidates
whose relatedness key survives pruning (the Jaccard component is nonzero;
it is 1.0 for a non-folderish source), as a permutation-free multiset
equality with the pruned input, sorted in descending lexicographic order of
the tuple `(jaccard, same_name, same_parent)`. -/
theorem rerank_returns_pruned_candidates_sorted_desc
    (store : List LastKnownState) (doc_pair : LastKnownState)
    (candidates : List LastKnownState) :
    List.Perm (rerank_local_rename_or_move_candidates store doc_pair candidates)
      (candidates.filter
        (fun c => decide ((relatednessKey store doc_pair c).1 ≠ 0)))
    ∧ (rerank_local_rename_or_move_candidates store doc_pair
        candidates).Pairwise
        (fun c1 c2 => key3Lex (relatednessKey store doc_pair c2)
          ≤ key3Lex (relatednessKey store doc_pair c1)) := by
  constructor
  · rw [rerank_filterMap_view]
    have h := (List.perm_insertionSort py2SortGe
      (candidates.filterMap (fun c =>
        if (relatednessKey store doc_pair c).1 = 0 then none
        else some (relatednessKey store doc_pair c, c)))).map (fun e => e.2)
    exact filterMap_relatedness_map_snd store doc_pair candidates ▸ h
  · rw [rerank_filterMap_view]
    apply List.pairwise_map.mpr
    have hs := List.sorted_insertionSort py2SortGe
      (candidates.filterMap (fun c =>
        if (relatednessKey store doc_pair c).1 = 0 then none
        else some (relatednessKey store doc_pair c, c)))
    refine hs.imp_of_mem ?_
    intro a b ha hb hab
    have ha2 := mem_filterMap_relatedness store doc_pair candidates a
      (by simpa using ha)
    have hb2 := mem_filterMap_relatedness store doc_pair candidates b
      (by simpa using hb)
    have hab2 : fullKeyLex b ≤ fullKeyLex a := hab
    unfold fullKeyLex at hab2
    rw [ha2, hb2] at hab2
    exact fullKey_le_key3Lex_le hab2

/-- C2 counterexample: two candidates with identical relatedness keys are
returned in the opposite of their input order (CPython 2 tuple comparison
falls through to the candidate objects, ordering ties by descending object
identity under `reverse=True`), so the re-ranking is not input-stable on
tied keys. -/
def cexSourcePair : LastKnownState := { oid := 0 }

/-- First candidate of the C2 counterexample (lower object identity). -/
def cexCandidateA : LastKnownState := { oid := 1 }

/-- Second candidate of the C2 counterexample (higher object identity). -/
def cexCandidateB : LastKnownState := { oid := 2 }

/-- C2 is refuted as stated: on two candidates with equal
`(jaccard, same_name, same_parent)` keys, the output order is the reverse of
the input order, so tied keys do not keep their relative input order. -/
theorem rerank_tied_keys_not_input_stable :
    relatednessKey [] cexSourcePair cexCandidateA
      = relatednessKey [] cexSourcePair cexCandidateB
    ∧ rerank_local_rename_or_move_candidates [] cexSourcePair
        [cexCandidateA, cexCandidateB] = [cexCandidateB, cexCandidateA]
    ∧ cexCandidateA ≠ cexCandidateB := by
  refine ⟨by decide, by decide, by decide⟩

/-- C2 as amended: the re-ranking is a pure function of its inputs (two runs
on the same inputs, including the candidates' object identities, give the
same output), and candidates with equal `(jaccard, same_name, same_parent)`
keys appear in descending object-identity order, the CPython 2 fallback
comparison, rather than in input order. -/
theorem rerank_deterministic_tie_order
    (store : List LastKnownState) (doc_pair : LastKnownState)
    (candidates : List LastKnownState) :
    rerank_local_rename_or_move_candidates store doc_pair candidates
      = rerank_local_rename_or_move_candidates store doc_pair candidates
    ∧ (rerank_local_rename_or_move_candidates store doc_pair
        candidates).Pairwise
        (fun c1 c2 => relatednessKey store doc_pair c1
            = relatednessKey store doc_pair c2 → c2.oid ≤ c1.oid) := by
  refine ⟨rfl, ?_⟩
  rw [rerank_filterMap_view]
  apply List.pairwise_map.mpr
  have hs := List.sorted_insertionSort py2SortGe
    (candidates.filterMap (fun c =>
      if (relatednessKey store doc_pair c).1 = 0 then none
      else some (relatednessKey store doc_pair c, c)))
  refine hs.imp_of_mem ?_
  intro a b ha hb hab hkey
  have ha2 := mem_filterMap_relatedness store doc_pair candidates a
    (by simpa using ha)
  have hb2 := mem_filterMap_relatedness store doc_pair candidates b
    (by simpa using hb)
  have hab2 : fullKeyLex b ≤ fullKeyLex a := hab
  unfold fullKeyLex at hab2
  rw [ha2, hb2, ← hkey] at hab2
  exact fullKey_le_same_key_oid_le hab2

/-- Source pair for the C2 witness. -/
def wSourcePair : LastKnownState := { oid := 10 }

/-- Lower-identity candidate for the C2 witness. -/
def wCandidateLo : LastKnownState := { oid := 3 }

/-- Higher-identity candidate for the C2 witness. -/
def wCandidateHi : LastKnownState := { oid := 4 }

/-- Witness for the amended C2 theorem at a concrete input: the pairwise
tie-break order yields a concrete object-identity inequality. -/
theorem rerank_deterministic_tie_order_witness :
    wCandidateLo.oid ≤ wCandidateHi.oid := by
  have h := (rerank_deterministic_tie_order [] wSourcePair
    [wCandidateHi, wCandidateLo]).2
  have he : rerank_local_rename_or_move_candidates [] wSourcePair
      [wCandidateHi, wCandidateLo] = [wCandidateHi, wCandidateLo] := by decide
  rw [he] at h
  exact (List.pairwise_cons.mp h).1 wCandidateLo (by simp) (by decide)

/-- C3: `jaccard_index` is 1 when both sets are empty and the exact ratio of
intersection to union cardinality otherwise, and it is 0 exactly when one
set is empty and the other is not, or the sets are disjoint and not both
empty. -/
theorem jaccard_index_spec {α : Type} [DecidableEq α] (A B : Finset α) :
    jaccard_index A B =
      (if A = ∅ ∧ B = ∅ then 1
       else ((A ∩ B).card : ℚ) / ((A ∪ B).card : ℚ))
    ∧ (jaccard_index A B = 0 ↔
        ((A = ∅ ∧ B ≠ ∅) ∨ (B = ∅ ∧ A ≠ ∅) ∨
         (A ∩ B = ∅ ∧ ¬(A = ∅ ∧ B = ∅)))) := by
  constructor
  · simp [jaccard_index, Finset.card_eq_zero]
  · by_cases hAB : A = ∅ ∧ B = ∅
    · rcases hAB with ⟨hA, hB⟩
      subst hA
      subst hB
      simp [jaccard_index]
    · have hcond : ¬(A.card = 0 ∧ B.card = 0) := by
        simpa [Finset.card_eq_zero] using hAB
      have hU : ((A ∪ B).card : ℚ) ≠ 0 := by
        rw [Nat.cast_ne_zero, ← Nat.pos_iff_ne_zero, Finset.card_pos,
          Finset.nonempty_iff_ne_empty]
        intro h
        exact hAB ⟨Finset.union_eq_empty.mp h |>.1,
          Finset.union_eq_empty.mp h |>.2⟩
      rw [jaccard_index, if_neg hcond, div_eq_zero_iff]
      simp only [hU, or_false, Nat.cast_eq_zero, Finset.card_eq_zero]
      constructor
      · intro hI
        by_cases hA : A = ∅
        · exact Or.inl ⟨hA, fun hB => hAB ⟨hA, hB⟩⟩
        · by_cases hB : B = ∅
          · exact Or.inr (Or.inl ⟨hB, hA⟩)
          · exact Or.inr (Or.inr ⟨hI, hAB⟩)
      · rintro (⟨hA, _⟩ | ⟨hB, _⟩ | ⟨hI, _⟩)
        · rw [hA, Finset.empty_inter]
        · rw [hB, Finset.inter_empty]
        · exact hI

/-- C9: `name_match` returns false whenever the extension of the local name
differs from the extension of the safe-filename-normalized remote name, and
when the extensions agree it returns true exactly when the local base name,
deduplication suffix stripped, equals the normalized remote base name. -/
theorem name_match_extension_and_base (local_name remote_name : String) :
    ((splitext (safe_filename remote_name)).2 ≠ (splitext local_name).2 →
      name_match local_name remote_name = false)
    ∧ ((splitext (safe_filename remote_name)).2 = (splitext local_name).2 →
      (name_match local_name remote_name = true ↔
        stripDedupSuffix (splitext local_name).1
          = (splitext (safe_filename remote_name)).1)) := by
  constructor
  · intro h
    simp [name_match, h]
  · intro h
    simp [name_match, h]

/-- Witness for C9 at concrete inputs: differing extensions refuse the
match; with equal extensions the deduplicated local base decides it. -/
theorem name_match_extension_and_base_witness :
    name_match "a.txt" "b.png" = false
    ∧ (name_match "foo__1.txt" "foo.txt" = true ↔
        stripDedupSuffix (splitext "foo__1.txt").1
          = (splitext (safe_filename "foo.txt")).1) :=
  ⟨(name_match_extension_and_base "a.txt" "b.png").1 (by decide),
   (name_match_extension_and_base "foo__1.txt" "foo.txt").2 (by decide)⟩

/-- C10: `find_first_name_match` returns the first pair in list order with
exactly one side's name present whose present name matches under
`name_match`, and never returns a pair with both names set. -/
theorem find_first_name_match_spec (name : String)
    (pairs : List LastKnownState) :
    find_first_name_match name pairs = pairs.find? (oneSidedNameMatch name)
    ∧ ∀ p, find_first_name_match name pairs = some p →
        ¬(p.local_name.isSome ∧ p.remote_name.isSome) := by
  have hmain : find_first_name_match name pairs
      = pairs.find? (oneSidedNameMatch name) := by
    induction pairs with
    | nil => rfl
    | cons p rest ih =>
      cases hl : p.local_name <;> cases hr : p.remote_name <;>
        simp [find_first_name_match, List.find?_cons, oneSidedNameMatch,
          hl, hr, ih] <;>
        (try split) <;> simp_all
  refine ⟨hmain, ?_⟩
  intro p hp
  rw [hmain] at hp
  have hpred := List.find?_some hp
  cases hl : p.local_name <;> cases hr : p.remote_name <;>
    simp [oneSidedNameMatch, hl, hr] at hpred ⊢

/-- A pair with both sides named, skipped by `find_first_name_match` even
when its names match. -/
def c10BothSides : LastKnownState :=
  { oid := 0, local_name := some "x.txt", remote_name := some "x.txt" }

/-- A pair with only the local name present. -/
def c10LocalOnly : LastKnownState := { oid := 1, local_name := some "x.txt" }

/-- Witness for C10 at a concrete input: the both-sided pair is skipped and
the one-sided matching pair is returned; the returned pair has one side
absent. -/
theorem find_first_name_match_spec_witness :
    find_first_name_match "x.txt" [c10BothSides, c10LocalOnly]
      = some c10LocalOnly
    ∧ ¬(c10LocalOnly.local_name.isSome ∧ c10LocalOnly.remote_name.isSome) :=
  ⟨by decide,
   (find_first_name_match_spec "x.txt" [c10BothSides, c10LocalOnly]).2
     c10LocalOnly (by decide)⟩

/-- Opaque remote collaborators for the C5 scenarios (never invoked on the
read-only-parent path). -/
def c5Env : CreateEnv :=
  { make_folder := fun _ _ => "", stream_file := fun _ _ => "",
    bind_remote := fun p _ => p }

/-- C5 as amended: with no move detected and a read-only parent pair found,
the locally-created handler performs no remote creation call and marks the
pair synchronized on both sides, but flips `remote_can_create_child` to
false only when the pair is folderish; a file pair keeps its flag. -/
theorem locally_created_readonly_parent (env : CreateEnv)
    (store : List LastKnownState) (doc_pair parent_pair : LastKnownState)
    (hfind : store.find? (fun q => q.local_folder == doc_pair.local_folder &&
        q.local_path == doc_pair.local_parent_path) = some parent_pair)
    (hro : parent_pair.remote_can_create_child = false) :
    _synchronize_locally_created env false store doc_pair =
      LocallyCreatedResult.done
        (update_state "synchronized" "synchronized"
          (if doc_pair.folderish then
            { doc_pair with remote_can_create_child := false }
          else doc_pair)) [] := by
  simp [_synchronize_locally_created, hfind, hro]

/-- Folderish pair of the C5 witness. -/
def c5FolderPair : LastKnownState :=
  { oid := 0, local_folder := "f", local_path := some "/a/d",
    local_parent_path := some "/a", folderish := true }

/-- Read-only parent pair of the C5 scenarios. -/
def c5ReadonlyParent : LastKnownState :=
  { oid := 1, local_folder := "f", local_path := some "/a",
    remote_ref := some "pr", remote_can_create_child := false }

/-- Witness for the amended C5 theorem: a folder created under a read-only
parent is marked synchronized with no remote call and its
`remote_can_create_child` flag flipped. -/
theorem locally_created_readonly_parent_witness :
    _synchronize_locally_created c5Env false [c5ReadonlyParent] c5FolderPair =
      LocallyCreatedResult.done
        (update_state "synchronized" "synchronized"
          (if c5FolderPair.folderish then
            { c5FolderPair with remote_can_create_child := false }
          else c5FolderPair)) [] :=
  locally_created_readonly_parent c5Env [c5ReadonlyParent] c5FolderPair
    c5ReadonlyParent (by decide) (by decide)

/-- File pair of the C5 counterexample, with its creation-permission flag
initially true. -/
def c5FilePair : LastKnownState :=
  { oid := 0, local_folder := "f", local_path := some "/a/x.txt",
    local_parent_path := some "/a", folderish := false,
    remote_can_create_child := true }

/-- C5 is refuted as stated: for a file (non-folderish pair) created under a
read-only parent, the handler marks the pair synchronized without any remote
call but leaves `remote_can_create_child` true — the flag is flipped only
for folders (the `if doc_pair.folderish` guard at lines 712-713). -/
theorem locally_created_file_keeps_create_flag :
    _synchronize_locally_created c5Env false [c5ReadonlyParent] c5FilePair =
      LocallyCreatedResult.done
        (update_state "synchronized" "synchronized" c5FilePair) []
    ∧ (update_state "synchronized" "synchronized"
        c5FilePair).remote_can_create_child = true := by
  refine ⟨?_, by decide⟩
  have h := locally_created_readonly_parent c5Env [c5ReadonlyParent]
    c5FilePair c5ReadonlyParent (by decide) (by decide)
  simpa [c5FilePair] using h

/-- C6: the exception policy of the `synchronize` loop: a network-type error
with HTTP status 500 or 403 blacklists the pair (sets
`last_sync_error_date` to the current time) and the loop continues with the
remaining pending pairs; any non-network exception does the same; every
other network-type error propagates out of `synchronize`. -/
theorem synchronize_error_policy (now : Nat) (pair : LastKnownState)
    (code : Option Nat) (rest : List (LastKnownState × SyncOneOutcome)) :
    (code = some 500 ∨ code = some 403 →
      synchronizeLoop now ((pair, SyncOneOutcome.networkError code) :: rest)
        = (synchronizeLoop now rest).map
            (fun rs => SyncStepResult.blacklisted
              { pair with last_sync_error_date := some now } :: rs))
    ∧ synchronizeLoop now ((pair, SyncOneOutcome.otherError) :: rest)
        = (synchronizeLoop now rest).map
            (fun rs => SyncStepResult.blacklisted
              { pair with last_sync_error_date := some now } :: rs)
    ∧ (code ≠ some 500 → code ≠ some 403 →
      synchronizeLoop now ((pair, SyncOneOutcome.networkError code) :: rest)
        = Except.error code) := by
  refine ⟨?_, ?_, ?_⟩
  · intro h
    have hcond : UNEXPECTED_HTTP_STATUS.any (fun s => code == some s) = true := by
      rcases h with h | h <;> subst h <;> decide
    simp [synchronizeLoop, syncLoopStep, hcond]
  · simp [synchronizeLoop, syncLoopStep]
  · intro h1 h2
    have hcond : UNEXPECTED_HTTP_STATUS.any (fun s => code == some s) = false := by
      simp [UNEXPECTED_HTTP_STATUS]
      exact ⟨h1, h2⟩
    simp [synchronizeLoop, syncLoopStep, hcond]

/-- Pending pair of the C6 witness. -/
def c6Pair : LastKnownState := { oid := 0 }

/-- Witness for C6 at concrete inputs: a 500 blacklists and continues, a 404
network error propagates. -/
theorem synchronize_error_policy_witness :
    synchronizeLoop 7 [(c6Pair, SyncOneOutcome.networkError (some 500))]
      = (synchronizeLoop 7 []).map
          (fun rs => SyncStepResult.blacklisted
            { c6Pair with last_sync_error_date := some 7 } :: rs)
    ∧ synchronizeLoop 7 [(c6Pair, SyncOneOutcome.networkError (some 404))]
      = Except.error (some 404) :=
  ⟨(synchronize_error_policy 7 c6Pair (some 500) []).1 (Or.inl rfl),
   (synchronize_error_policy 7 c6Pair (some 404) []).2.2 (by decide) (by decide)⟩

/-- C7: `update_synchronize_server` performs the full remote scan exactly
when the `full_scan` argument is set, the summary reports too many changes,
or the binding has no `last_sync_date` (first pass); otherwise it applies
the incremental change summary; in both cases the checkpoint
`(syncDate, activeSynchronizationRootDefinitions)` of the fetched summary is
saved on the binding. -/
theorem update_synchronize_server_scan_choice (env : RemoteScanEnv)
    (scan_remote : List LastKnownState → List LastKnownState)
    (binding : ServerBinding) (summary : ChangeSummary) (full_scan : Bool)
    (store : List LastKnownState) :
    (update_synchronize_server env scan_remote binding summary full_scan
        store).1
      = (full_scan || summary.hasTooManyChanges ||
          binding.last_sync_date.isNone)
    ∧ (update_synchronize_server env scan_remote binding summary full_scan
        store).2.1
      = (if full_scan || summary.hasTooManyChanges ||
            binding.last_sync_date.isNone
         then scan_remote store
         else (_update_remote_states env binding summary.fileSystemChanges
            store).1)
    ∧ (update_synchronize_server env scan_remote binding summary full_scan
        store).2.2.last_sync_date = some summary.syncDate
    ∧ (update_synchronize_server env scan_remote binding summary full_scan
        store).2.2.last_root_definitions
      = summary.activeSynchronizationRootDefinitions := by
  cases h : (full_scan || summary.hasTooManyChanges ||
      binding.last_sync_date.isNone) <;>
    simp [update_synchronize_server, _checkpoint,
      _get_remote_changes_checkpoint, h]

theorem markAux_last (fuel : Nat) :
    ∀ (store : List LastKnownState) (tasks : List MarkTask)
      (p : LastKnownState) (st : List LastKnownState) (tr : List StoreAction),
      markDeletedLocalAux fuel store (tasks ++ [MarkTask.act p])
        = some (st, tr) →
      tr.getLast? = some (markPairAction p) := by
  induction fuel with
  | zero =>
    intro store tasks p st tr h
    simp [markDeletedLocalAux] at h
  | succ f ih =>
    intro store tasks p st tr h
    cases tasks with
    | nil =>
      cases f with
      | zero => simp [markDeletedLocalAux] at h
      | succ f2 =>
        simp [markDeletedLocalAux] at h
        obtain ⟨-, htr⟩ := h
        simp [← htr]
    | cons t rest =>
      cases t with
      | visit q =>
        rw [List.cons_append] at h
        simp only [markDeletedLocalAux] at h
        rw [show (childrenByLocalParent store q).map MarkTask.visit ++
            MarkTask.act q :: (rest ++ [MarkTask.act p])
            = ((childrenByLocalParent store q).map MarkTask.visit ++
              MarkTask.act q :: rest) ++ [MarkTask.act p] by simp] at h
        exact ih store _ p st tr h
      | act q =>
        rw [List.cons_append] at h
        simp only [markDeletedLocalAux] at h
        cases hrec : markDeletedLocalAux f (applyMarkPair store q)
            (rest ++ [MarkTask.act p]) with
        | none => rw [hrec] at h; simp at h
        | some r =>
          rw [hrec] at h
          obtain ⟨st1, tr1⟩ := r
          simp only [Option.some.injEq, Prod.mk.injEq] at h
          obtain ⟨-, htr⟩ := h
          have hlast := ih _ _ p st1 tr1 hrec
          cases tr1 with
          | nil => simp at hlast
          | cons x xs =>
            rw [← htr, List.getLast?_cons_cons]
            exact hlast

theorem markAux_mem_dropLast (fuel : Nat) :
    ∀ (store : List LastKnownState) (tasks : List MarkTask)
      (p : LastKnownState) (st : List LastKnownState) (tr : List StoreAction),
      markDeletedLocalAux fuel store (tasks ++ [MarkTask.act p])
        = some (st, tr) →
      ∀ t ∈ tasks, markPairAction t.pairOf ∈ tr.dropLast := by
  induction fuel with
  | zero =>
    intro store tasks p st tr h
    simp [markDeletedLocalAux] at h
  | succ f ih =>
    intro store tasks p st tr h
    cases tasks with
    | nil => intro t ht; simp at ht
    | cons t0 rest =>
      cases t0 with
      | visit q =>
        rw [List.cons_append] at h
        simp only [markDeletedLocalAux] at h
        rw [show (childrenByLocalParent store q).map MarkTask.visit ++
            MarkTask.act q :: (rest ++ [MarkTask.act p])
            = ((childrenByLocalParent store q).map MarkTask.visit ++
              MarkTask.act q :: rest) ++ [MarkTask.act p] by simp] at h
        have hall := ih store _ p st tr h
        intro t ht
        rcases List.mem_cons.mp ht with rfl | ht2
        · exact hall (MarkTask.act q) (by simp)
        · exact hall t (by simp [ht2])
      | act q =>
        rw [List.cons_append] at h
        simp only [markDeletedLocalAux] at h
        cases hrec : markDeletedLocalAux f (applyMarkPair store q)
            (rest ++ [MarkTask.act p]) with
        | none => rw [hrec] at h; simp at h
        | some r =>
          rw [hrec] at h
          obtain ⟨st1, tr1⟩ := r
          simp only [Option.some.injEq, Prod.mk.injEq] at h
          obtain ⟨-, htr⟩ := h
          have hlast := markAux_last f _ _ p st1 tr1 hrec
          have hall := ih _ _ p st1 tr1 hrec
          cases tr1 with
          | nil => simp at hlast
          | cons x xs =>
            intro t ht
            rcases List.mem_cons.mp ht with rfl | ht2
            · rw [← htr, List.dropLast_cons₂]
              exact List.mem_cons_self _ _
            · rw [← htr, List.dropLast_cons₂]
              exact List.mem_cons_of_mem _ (hall t ht2)

theorem markAux_delete_all (fuel : Nat) :
    ∀ (store : List LastKnownState) (tasks : List MarkTask)
      (p : LastKnownState) (st : List LastKnownState) (tr : List StoreAction),
      markDeletedLocalAux fuel store (tasks ++ [MarkTask.act p])
        = some (st, tr) →
      p.remote_ref = none → ∀ q ∈ st, q.oid ≠ p.oid := by
  induction fuel with
  | zero =>
    intro store tasks p st tr h
    simp [markDeletedLocalAux] at h
  | succ f ih =>
    intro store tasks p st tr h hnone
    cases tasks with
    | nil =>
      cases f with
      | zero => simp [markDeletedLocalAux] at h
      | succ f2 =>
        simp [markDeletedLocalAux] at h
        obtain ⟨hst, -⟩ := h
        intro q hq
        rw [← hst, applyMarkPair, if_pos hnone] at hq
        have := List.of_mem_filter hq
        simpa using this
    | cons t0 rest =>
      cases t0 with
      | visit q0 =>
        rw [List.cons_append] at h
        simp only [markDeletedLocalAux] at h
        rw [show (childrenByLocalParent store q0).map MarkTask.visit ++
            MarkTask.act q0 :: (rest ++ [MarkTask.act p])
            = ((childrenByLocalParent store q0).map MarkTask.visit ++
              MarkTask.act q0 :: rest) ++ [MarkTask.act p] by simp] at h
        exact ih store _ p st tr h hnone
      | act q0 =>
        rw [List.cons_append] at h
        simp only [markDeletedLocalAux] at h
        cases hrec : markDeletedLocalAux f (applyMarkPair store q0)
            (rest ++ [MarkTask.act p]) with
        | none => rw [hrec] at h; simp at h
        | some r =>
          rw [hrec] at h
          obtain ⟨st1, tr1⟩ := r
          simp only [Option.some.injEq, Prod.mk.injEq] at h
          obtain ⟨hst, -⟩ := h
          rw [← hst]
          exact ih _ _ p st1 tr1 hrec hnone

theorem markAux_mark_all (fuel : Nat) :
    ∀ (store : List LastKnownState) (tasks : List MarkTask)
      (p : LastKnownState) (st : List LastKnownState) (tr : List StoreAction),
      markDeletedLocalAux fuel store (tasks ++ [MarkTask.act p])
        = some (st, tr) →
      p.remote_ref ≠ none →
      ∀ q ∈ st, q.oid = p.oid → q.local_state = "deleted" := by
  induction fuel with
  | zero =>
    intro store tasks p st tr h
    simp [markDeletedLocalAux] at h
  | succ f ih =>
    intro store tasks p st tr h hsome
    cases tasks with
    | nil =>
      cases f with
      | zero => simp [markDeletedLocalAux] at h
      | succ f2 =>
        simp [markDeletedLocalAux] at h
        obtain ⟨hst, -⟩ := h
        intro q hq hqoid
        rw [← hst, applyMarkPair, if_neg hsome] at hq
        rcases List.mem_map.mp hq with ⟨q0, -, hq0⟩
        by_cases hcase : q0.oid = p.oid
        · rw [← hq0, if_pos (by simp [hcase])]
          rfl
        · rw [← hq0, if_neg (by simp [hcase])] at hqoid
          exact absurd hqoid hcase
    | cons t0 rest =>
      cases t0 with
      | visit q0 =>
        rw [List.cons_append] at h
        simp only [markDeletedLocalAux] at h
        rw [show (childrenByLocalParent store q0).map MarkTask.visit ++
            MarkTask.act q0 :: (rest ++ [MarkTask.act p])
            = ((childrenByLocalParent store q0).map MarkTask.visit ++
              MarkTask.act q0 :: rest) ++ [MarkTask.act p] by simp] at h
        exact ih store _ p st tr h hsome
      | act q0 =>
        rw [List.cons_append] at h
        simp only [markDeletedLocalAux] at h
        cases hrec : markDeletedLocalAux f (applyMarkPair store q0)
            (rest ++ [MarkTask.act p]) with
        | none => rw [hrec] at h; simp at h
        | some r =>
          rw [hrec] at h
          obtain ⟨st1, tr1⟩ := r
          simp only [Option.some.injEq, Prod.mk.injEq] at h
          obtain ⟨hst, -⟩ := h
          rw [← hst]
          exact ih _ _ p st1 tr1 hrec hsome

theorem markAux_exists_oid (fuel : Nat) :
    ∀ (store : List LastKnownState) (tasks : List MarkTask) (o : Nat)
      (st : List LastKnownState) (tr : List StoreAction),
      markDeletedLocalAux fuel store tasks = some (st, tr) →
      (∀ q ∈ store, q.oid = o → q.remote_ref ≠ none) →
      (∀ t ∈ tasks, t.pairOf.oid = o → t.pairOf.remote_ref ≠ none) →
      (∃ q ∈ store, q.oid = o) →
      ∃ q ∈ st, q.oid = o := by
  induction fuel with
  | zero =>
    intro store tasks o st tr h
    simp [markDeletedLocalAux] at h
  | succ f ih =>
    intro store tasks o st tr h hrow htask hex
    cases tasks with
    | nil =>
      simp [markDeletedLocalAux] at h
      obtain ⟨hst, -⟩ := h
      rw [← hst]
      exact hex
    | cons t0 rest =>
      cases t0 with
      | visit q0 =>
        simp only [markDeletedLocalAux] at h
        refine ih store _ o st tr h hrow ?_ hex
        intro t ht
        rcases List.mem_append.mp ht with ht1 | ht2
        · rcases List.mem_map.mp ht1 with ⟨c, hc, rfl⟩
          have hcmem : c ∈ store := List.mem_of_mem_filter hc
          exact fun ho => hrow c hcmem ho
        · rcases List.mem_cons.mp ht2 with rfl | ht3
          · intro ho
            exact htask (MarkTask.visit q0) (by simp) ho
          · exact htask t (by simp [ht3])
      | act q0 =>
        simp only [markDeletedLocalAux] at h
        cases hrec : markDeletedLocalAux f (applyMarkPair store q0) rest with
        | none => rw [hrec] at h; simp at h
        | some r =>
          rw [hrec] at h
          obtain ⟨st1, tr1⟩ := r
          simp only [Option.some.injEq, Prod.mk.injEq] at h
          obtain ⟨hst, -⟩ := h
          rw [← hst]
          have htask0 : q0.oid = o → q0.remote_ref ≠ none :=
            fun ho => htask (MarkTask.act q0) (by simp) ho
          refine ih _ rest o st1 tr1 hrec ?_ ?_ ?_
          · intro q hq hqo
            rw [applyMarkPair] at hq
            by_cases hq0 : q0.remote_ref = none
            · rw [if_pos hq0] at hq
              exact hrow q (List.mem_of_mem_filter hq) hqo
            · rw [if_neg hq0] at hq
              rcases List.mem_map.mp hq with ⟨q1, hq1, hq1eq⟩
              by_cases hc : q1.oid = q0.oid
              · rw [← hq1eq, if_pos (by simp [hc])] at hqo ⊢
                exact hrow q1 hq1 hqo
              · rw [← hq1eq, if_neg (by simp [hc])] at hqo ⊢
                exact hrow q1 hq1 hqo
          · intro t ht
            exact htask t (by simp [ht])
          · rcases hex with ⟨q, hq, hqo⟩
            rw [applyMarkPair]
            by_cases hq0 : q0.remote_ref = none
            · rw [if_pos hq0]
              have hne : q.oid ≠ q0.oid := by
                intro hqq
                have ho : q0.oid = o := by rw [← hqq]; exact hqo
                exact htask0 ho hq0
              refine ⟨q, List.mem_filter.mpr ⟨hq, by simpa using hne⟩, hqo⟩
            · rw [if_neg hq0]
              by_cases hc : q.oid = q0.oid
              · refine ⟨update_local_none q, List.mem_map.mpr ⟨q, hq, ?_⟩, hqo⟩
                rw [if_pos (by simp [hc])]
              · refine ⟨q, List.mem_map.mpr ⟨q, hq, ?_⟩, hqo⟩
                rw [if_neg (by simp [hc])]

/-- C8 as amended: when the recursion completes, the action on the pair
itself is the last one (every child action precedes it); every child pair —
a row in the same `local_folder` whose `local_parent_path` equals the pair's
`local_path` — is acted on before the pair; the pair's row is deleted from
the store when its `remote_ref` is absent, and otherwise every surviving row
with the pair's identity is marked `local_state = deleted` and the row is
kept (assuming the store's rows with that identity carry the pair's
`remote_ref`). -/
theorem mark_deleted_local_recursive_spec (fuel : Nat)
    (store : List LastKnownState) (doc_pair : LastKnownState)
    (st : List LastKnownState) (tr : List StoreAction)
    (h : _mark_deleted_local_recursive fuel store doc_pair = some (st, tr))
    (hrow : ∀ q ∈ store, q.oid = doc_pair.oid →
      q.remote_ref = doc_pair.remote_ref) :
    tr.getLast? = some (markPairAction doc_pair)
    ∧ (∀ c ∈ childrenByLocalParent store doc_pair,
        markPairAction c ∈ tr.dropLast)
    ∧ (doc_pair.remote_ref = none → ∀ p ∈ st, p.oid ≠ doc_pair.oid)
    ∧ (doc_pair.remote_ref ≠ none →
        (∀ p ∈ st, p.oid = doc_pair.oid → p.local_state = "deleted")
        ∧ ((∃ q ∈ store, q.oid = doc_pair.oid) →
            ∃ p ∈ st, p.oid = doc_pair.oid)) := by
  cases fuel with
  | zero => simp [_mark_deleted_local_recursive, markDeletedLocalAux] at h
  | succ f =>
    rw [_mark_deleted_local_recursive] at h
    simp only [markDeletedLocalAux] at h
    refine ⟨markAux_last f store _ doc_pair st tr h, ?_, ?_, ?_⟩
    · intro c hc
      exact markAux_mem_dropLast f store _ doc_pair st tr h
        (MarkTask.visit c) (List.mem_map.mpr ⟨c, hc, rfl⟩)
    · exact markAux_delete_all f store _ doc_pair st tr h
    · intro hsome
      refine ⟨markAux_mark_all f store _ doc_pair st tr h hsome, ?_⟩
      intro hex
      refine markAux_exists_oid (f + 1) store [MarkTask.visit doc_pair]
        doc_pair.oid st tr ?_ ?_ ?_ hex
      · simpa only [markDeletedLocalAux] using h
      · intro q hq hqo
        rw [hrow q hq hqo]
        exact hsome
      · intro t ht hto
        rcases List.mem_singleton.mp ht with rfl
        exact hsome

/-- Pair marked locally deleted in the C8 witness (bound remotely, so its
row is kept and marked). -/
def c8Pair : LastKnownState :=
  { oid := 0, local_folder := "f", local_path := some "/a",
    local_parent_path := some "/", remote_ref := some "r" }

/-- Unbound child of the C8 witness pair (its row is deleted first). -/
def c8Child : LastKnownState :=
  { oid := 1, local_folder := "f", local_path := some "/a/b",
    local_parent_path := some "/a", remote_ref := none }

/-- Witness for the amended C8 theorem on a concrete two-row store: the
child's deletion precedes the parent's marking, and the parent row survives
marked `deleted`. -/
theorem mark_deleted_local_recursive_spec_witness :
    ([StoreAction.deleteRow 1,
      StoreAction.markLocallyDeleted 0].getLast?
      = some (markPairAction c8Pair))
    ∧ (∀ c ∈ childrenByLocalParent [c8Pair, c8Child] c8Pair,
        markPairAction c ∈ [StoreAction.deleteRow 1,
          StoreAction.markLocallyDeleted 0].dropLast)
    ∧ (c8Pair.remote_ref = none →
        ∀ p ∈ [update_local_none c8Pair], p.oid ≠ c8Pair.oid)
    ∧ (c8Pair.remote_ref ≠ none →
        (∀ p ∈ [update_local_none c8Pair], p.oid = c8Pair.oid →
          p.local_state = "deleted")
        ∧ ((∃ q ∈ [c8Pair, c8Child], q.oid = c8Pair.oid) →
            ∃ p ∈ [update_local_none c8Pair], p.oid = c8Pair.oid)) :=
  mark_deleted_local_recursive_spec 6 [c8Pair, c8Child] c8Pair
    [update_local_none c8Pair]
    [StoreAction.deleteRow 1, StoreAction.markLocallyDeleted 0]
    (by decide) (by decide)

/-- A pair in a different `local_folder` whose `local_parent_path`
nevertheless equals the deleted pair's `local_path`. -/
def c8Foreign : LastKnownState :=
  { oid := 5, local_folder := "g", local_parent_path := some "/a",
    remote_ref := none }

/-- The pair mark-locally-deleted is invoked on in the C8 counterexample. -/
def c8Invoked : LastKnownState :=
  { oid := 0, local_folder := "f", local_path := some "/a",
    remote_ref := none }

/-- C8 is refuted as stated: `c8Foreign` is a child pair by the claim's
definition (its `local_parent_path` equals the invoked pair's `local_path`)
and has no `remote_ref`, so the claim requires its row to be deleted; but
the source query also filters on `local_folder` (line 288), so the
procedure never recurses into it: its row survives untouched and no action
for its identity is taken. -/
theorem mark_deleted_skips_foreign_folder_child :
    c8Foreign.local_parent_path = c8Invoked.local_path
    ∧ c8Foreign.remote_ref = none
    ∧ _mark_deleted_local_recursive 5 [c8Foreign] c8Invoked
        = some ([c8Foreign], [StoreAction.deleteRow 0])
    ∧ (∀ a ∈ [StoreAction.deleteRow 0],
        a ≠ StoreAction.deleteRow c8Foreign.oid) := by
  refine ⟨by decide, by decide, by decide, by decide⟩

theorem processRemoteChanges_refs_fresh (env : RemoteScanEnv)
    (binding : ServerBinding) :
    ∀ (changes : List ChangeEvent) (store : List LastKnownState)
      (refreshed : List String),
      ((processRemoteChanges env binding changes store refreshed).2.map
        (fun e => e.remote_ref)).Nodup
      ∧ ∀ e ∈ (processRemoteChanges env binding changes store refreshed).2,
          e.remote_ref ∉ refreshed := by
  intro changes
  induction changes with
  | nil => intro store refreshed; simp [processRemoteChanges]
  | cons change rest ih =>
    intro store refreshed
    by_cases hmem : change.fileSystemItemId ∈ refreshed
    · simp only [processRemoteChanges, if_pos hmem]
      exact ih store refreshed
    · simp only [processRemoteChanges, if_neg hmem]
      cases hstep : stepRemoteChange env binding change store with
      | mk store1 oact =>
        cases oact with
        | none => simpa using ih store1 refreshed
        | some act =>
          have ihr := ih store1 (change.fileSystemItemId :: refreshed)
          constructor
          · simp only [List.map_cons, List.nodup_cons]
            refine ⟨?_, ihr.1⟩
            intro hin
            rcases List.mem_map.mp hin with ⟨e, he, heq⟩
            exact ihr.2 e he (by rw [heq]; exact List.mem_cons_self _ _)
          · intro e he
            rcases List.mem_cons.mp he with rfl | he2
            · exact hmem
            · intro hc
              exact ihr.2 e he2 (List.mem_cons_of_mem _ hc)

/-- C4 as amended: `_update_remote_states` processes the events in
non-increasing `eventDate` order (a stable descending sort, a permutation of
the summary), and for every `remote_ref` at most one event is applied to the
store — once an event for a ref is applied, all remaining (older) events for
that ref are skipped; events that do not result in a store update do not
block older events for the same ref. -/
theorem update_remote_states_discipline (env : RemoteScanEnv)
    (binding : ServerBinding) (changes : List ChangeEvent)
    (store : List LastKnownState) :
    (sortedChanges changes).Pairwise (fun a b => b.eventDate ≤ a.eventDate)
    ∧ List.Perm (sortedChanges changes) changes
    ∧ ((_update_remote_states env binding changes store).2.map
        (fun e => e.remote_ref)).Nodup :=
  ⟨List.sorted_insertionSort changeDateGe changes,
   List.perm_insertionSort changeDateGe changes,
   (processRemoteChanges_refs_fresh env binding (sortedChanges changes)
     store []).1⟩

/-- Concrete collaborators for the C4 counterexample: the recursive scan
leaves the store unchanged and match-or-create reports a newly created
pair. -/
def c4Env : RemoteScanEnv :=
  { scan_remote_recursive := fun store _ _ => store,
    find_remote_child_match_or_create := fun store parent info =>
      (store,
       { oid := 100, local_folder := parent.local_folder,
         remote_ref := some info.uid, folderish := info.folderish }, true),
    update_remote := fun p _ => p }

/-- Server binding of the C4 counterexample. -/
def c4Binding : ServerBinding := { local_folder := "f", server_url := "u" }

/-- Parent pair present in the store of the C4 counterexample. -/
def c4Parent : LastKnownState :=
  { oid := 1, local_folder := "f", server_url := "u",
    remote_ref := some "p" }

/-- File-system item carried by the older change event. -/
def c4Info : FsItemInfo :=
  { uid := "r", parent_uid := "p", name := "a", folderish := false }

/-- Most recent event for ref `r`: a deletion of a pair the store does not
know, which applies nothing. -/
def c4Newest : ChangeEvent :=
  { eventDate := 2, fileSystemItemId := "r", fileSystemItem := none }

/-- Older event for the same ref `r`: a creation under a known parent. -/
def c4Older : ChangeEvent :=
  { eventDate := 1, fileSystemItemId := "r", fileSystemItem := some c4Info }

/-- A third event for a distinct ref `s` sharing the older event's
`eventDate`, so the summary holds a tie. -/
def c4Tied : ChangeEvent :=
  { eventDate := 1, fileSystemItemId := "s", fileSystemItem := none }

/-- C4 is refuted as stated, on one concrete summary, in both clauses.
Order clause: the events are processed in the order of the stable
descending sort, and with the tied dates 1 and 1 that processing order is
not strictly descending in `eventDate`.  Winner clause: the most recent
event for ref `r` applies nothing (no pair with that ref exists and the
item is absent), so it is not added to the `refreshed` set, and the older
event for the same ref is then applied — 'the most recent event for that
ref wins and all older events for the same ref are skipped' fails. -/
theorem update_remote_states_applies_older_event :
    sortedChanges [c4Newest, c4Older, c4Tied] = [c4Newest, c4Older, c4Tied]
    ∧ c4Older.eventDate = c4Tied.eventDate
    ∧ ¬ ((sortedChanges [c4Newest, c4Older, c4Tied]).Pairwise
        (fun a b => b.eventDate < a.eventDate))
    ∧ (_update_remote_states c4Env c4Binding [c4Newest, c4Older, c4Tied]
        [c4Parent]).2
      = [{ eventDate := 1, remote_ref := "r",
           action := RemoteChangeAction.createChild }]
    ∧ c4Newest ∈ [c4Newest, c4Older, c4Tied]
    ∧ c4Newest.fileSystemItemId = "r"
    ∧ c4Older.eventDate < c4Newest.eventDate := by
  refine ⟨by decide, by decide, by decide, by decide, by decide, by decide,
    by decide⟩
